import Mathlib

/-!
# Verification of the `fz` placeholder-lambda library

A shallow embedding of the two near-duplicate modules `src/fz/__init__.py`
and `src/_/__init__.py`.  The modules build Python `ast` fragments by
operator overloading on `placeholder` objects, compile them into callables
on first invocation, and bind captured constants via an external
constant-injection service (`asconstants`, treated as a black box that
resolves the listed free names to the stored values).

Modelling conventions:
* Python `ast` trees are the inductive `Tree`; a `placeholder` object that
  occurs *inside* a tree (the code stores the object itself in tree
  positions) is the `Tree.ph` constructor.
* The `tree is self` sentinel of a bare slot marker is `tree = none` in the
  `placeholder` structure (the code tests `other._tree is not other`).
* Machine details that cannot occur in the repository's data (hash
  collisions between `id()`-hashed placeholder keys and string keys of
  `_NameSubstitute.name_cache`, uuid hex collisions) are modelled as
  impossible: the memo lookup always misses, and fresh synthetic names come
  from a deterministic counter (`_u0`, `_u1`, ...) whose names, like uuid
  hex strings, never parse as integers.
* Python `repr` is modelled by `reprObj`; the display strings are carried
  but no claim depends on their exact shape.
-/

namespace Fz

/-- Python error classes that the modelled code can raise. -/
inductive PyErr where
  | typeError : PyErr
  | valueError : PyErr
  | nameError : PyErr
deriving DecidableEq

/-- The `ast` binary-operator node classes used by `_binop_map` in the two
modules (`ast.Add`, `ast.Sub`, ...). -/
inductive BinOpKind where
  | add | sub | mult | div | floordiv | mod | pow
  | bitand | bitor | bitxor | lshift | rshift
deriving DecidableEq

/-! ## Decimal printing and parsing

`'%d' % n` (used to create the marker names `_1` ... `_255` and the
synthesized parameter names) and Python's `int(...)` (used by `_compile` on
`name[1:]` for every name in the substitution cache). -/

/-- The character of a single decimal digit. -/
def digitChar (d : Nat) : Char := Char.ofNat (48 + d)

/-- Little-endian decimal digits of `n`; structural fuel keeps the
definition kernel-reducible.  `natToRevDigits n n` is the full digit
list for `n ≠ 0`. -/
def natToRevDigits : Nat → Nat → List Nat
  | 0, _ => []
  | fuel + 1, n => if n = 0 then [] else n % 10 :: natToRevDigits fuel (n / 10)

/-- The characters `'%d' % n` produces. -/
def natReprChars (n : Nat) : List Char :=
  if n = 0 then ['0'] else ((natToRevDigits n n).reverse.map digitChar)

/-- Model of `'%d' % n`. -/
def natRepr (n : Nat) : String := ⟨natReprChars n⟩

/-- Value of a big-endian digit-character list. -/
def digitsVal (cs : List Char) : Nat :=
  cs.foldl (fun a c => a * 10 + (c.toNat - 48)) 0

/-- Model of Python `int(s)` on the character list of `s`, for the inputs
arising here: a nonempty all-digit string parses to its value, anything
else raises `ValueError`.  (Python also accepts signs, surrounding
whitespace and inner underscores; none of those occur in this code's
substitution-cache names, and a leading underscore or space-and-symbol
tail fails in Python exactly as here.) -/
def pyParseNat (cs : List Char) : Option Nat :=
  if cs ≠ [] ∧ cs.all Char.isDigit then some (digitsVal cs) else none

theorem digitChar_toNat {d : Nat} (h : d < 10) : (digitChar d).toNat = 48 + d := by
  interval_cases d <;> rfl

theorem digitChar_isDigit {d : Nat} (h : d < 10) : (digitChar d).isDigit = true := by
  interval_cases d <;> rfl

theorem natToRevDigits_lt (fuel n : Nat) : ∀ d ∈ natToRevDigits fuel n, d < 10 := by
  induction fuel generalizing n with
  | zero => intro d hd; simp [natToRevDigits] at hd
  | succ fuel ih =>
    intro d hd
    by_cases h : n = 0
    · simp [natToRevDigits, h] at hd
    · simp only [natToRevDigits, if_neg h, List.mem_cons] at hd
      rcases hd with hd | hd
      · subst hd; exact Nat.mod_lt _ (by omega)
      · exact ih _ d hd

theorem digitsVal_append_digit (cs : List Char) (c : Char) :
    digitsVal (cs ++ [c]) = digitsVal cs * 10 + (c.toNat - 48) := by
  simp [digitsVal, List.foldl_append]

/-- The value of the big-endian digit rendering of `n` is `n`. -/
theorem digitsVal_natToRevDigits (fuel n : Nat) (h : n ≤ fuel) :
    digitsVal (((natToRevDigits fuel n).reverse.map digitChar)) = n := by
  induction fuel generalizing n with
  | zero =>
    interval_cases n
    simp [natToRevDigits, digitsVal]
  | succ fuel ih =>
    by_cases h0 : n = 0
    · subst h0; simp [natToRevDigits, digitsVal]
    · have hdiv : n / 10 ≤ fuel := by
        have := Nat.div_lt_self (Nat.pos_of_ne_zero h0) (by omega : 1 < 10)
        omega
      simp only [natToRevDigits, if_neg h0, List.reverse_cons, List.map_append,
        List.map_cons, List.map_nil]
      rw [digitsVal_append_digit, ih _ hdiv]
      rw [digitChar_toNat (Nat.mod_lt _ (by omega))]
      omega

theorem natToRevDigits_ne_nil (fuel n : Nat) (h0 : n ≠ 0) (h : n ≤ fuel) :
    natToRevDigits fuel n ≠ [] := by
  cases fuel with
  | zero => omega
  | succ fuel => simp [natToRevDigits, h0]

/-- Round trip: the decimal rendering of any `n` parses back to `n`. -/
theorem pyParseNat_natReprChars (n : Nat) : pyParseNat (natReprChars n) = some n := by
  by_cases h0 : n = 0
  · subst h0; rfl
  · have hne : natToRevDigits n n ≠ [] := natToRevDigits_ne_nil n n h0 le_rfl
    have hnil : ((natToRevDigits n n).reverse.map digitChar) ≠ [] := by
      simp [List.map_eq_nil_iff, hne]
    have hdig : (((natToRevDigits n n).reverse.map digitChar)).all Char.isDigit = true := by
      rw [List.all_eq_true]
      intro c hc
      rw [List.mem_map] at hc
      obtain ⟨d, hd, rfl⟩ := hc
      rw [List.mem_reverse] at hd
      exact digitChar_isDigit (natToRevDigits_lt n n d hd)
    simp only [natReprChars, if_neg h0, pyParseNat, ne_eq, hnil, not_false_eq_true,
      hdig, and_self, if_pos]
    rw [digitsVal_natToRevDigits n n le_rfl]

/-- `natRepr` is injective (two numbers with the same rendering parse to
the same value). -/
theorem natReprChars_injective : Function.Injective natReprChars := by
  intro a b hab
  have ha := pyParseNat_natReprChars a
  have hb := pyParseNat_natReprChars b
  rw [hab, hb] at ha
  exact (Option.some.injEq _ _ ▸ ha).symm

/-! ## Data model

`placeholder` is the expression-node class of both modules (fields
`_name`, `_tree`, `_constants`; the compiled-callable cache `_maybe_fn` is
modelled separately in `NodeSt` below since it is the only mutable field).
`Tree` is the fragment of Python `ast` that the overloads construct:
`Name`, `BinOp`, `Subscript` (whose `ast.Index` wrapper is traversed
transparently by both the substitution pass and evaluation and is folded
away here) and `Call`, plus an embedded `placeholder` object — the code
places placeholder objects themselves into tree positions.  `Obj` is the
universe of Python values the claims need: integers, strings, named
functions, other external objects (mappings etc.), tuples, and
placeholders. -/

mutual
inductive Obj : Type where
  | int : Int → Obj
  | str : String → Obj
  | func : Nat → String → Obj
  | ext : Nat → Obj
  | tuple : List Obj → Obj
  | node : placeholder → Obj
inductive placeholder : Type where
  | mk : String → Option Tree → List (String × Obj) → placeholder
inductive Tree : Type where
  | name : String → Tree
  | binop : BinOpKind → Tree → Tree → Tree
  | subscript : Tree → Tree → Tree
  | call : Tree → List Tree → List Tree → Tree
  | ph : placeholder → Tree
end

/-- `self._name`. -/
def placeholder.name : placeholder → String
  | .mk s _ _ => s

/-- `self._tree`, with `none` standing for the `tree is self` sentinel of a
bare slot marker (`__init__` stores `self` when no tree is passed, and all
uses test `t is self`). -/
def placeholder.tree : placeholder → Option Tree
  | .mk _ t _ => t

/-- `self._constants`. -/
def placeholder.constants : placeholder → List (String × Obj)
  | .mk _ _ c => c

/-- Python `repr` of an integer. -/
def intRepr : Int → String
  | .ofNat n => natRepr n
  | .negSucc n => "-" ++ natRepr (n + 1)

mutual
/-- Python `repr` for the modelled values (`placeholder.__repr__` is
`'<%s-lambda: %s>' % (type, name)`; external objects render with an
opaque address-style tag). -/
def reprObj : Obj → String
  | .int i => intRepr i
  | .str s => "'" ++ s ++ "'"
  | .func _ nm => "<function " ++ nm ++ ">"
  | .ext o => "<obj " ++ natRepr o ++ ">"
  | .tuple xs =>
      "(" ++ String.intercalate ", " (reprList xs) ++
        (if xs.length = 1 then ",)" else ")")
  | .node n => "<placeholder-lambda: " ++ n.name ++ ">"
def reprList : List Obj → List String
  | [] => []
  | x :: xs => reprObj x :: reprList xs
end

/-- The name of the `k`-th slot marker (`'_%d' % k`). -/
def markerName (k : Nat) : String := ⟨'_' :: natReprChars k⟩

/-- The bare slot marker `_k` (`placeholder(name)`: tree is self,
constants empty). -/
def marker (k : Nat) : placeholder := .mk (markerName k) none []

/-- A synthetic constant name, modelling `'_' + uuid4().hex`: globally
unique and never parseable as an integer. -/
def uuidName (k : Nat) : String := ⟨'_' :: 'u' :: natReprChars k⟩

/-- The supply of fresh synthetic names. -/
structure Ctx where
  counter : Nat

def Ctx.fresh (c : Ctx) : String × Ctx := (uuidName c.counter, ⟨c.counter + 1⟩)

def ctx0 : Ctx := ⟨0⟩

/-- Association-list lookup for the constants/namespace dictionaries. -/
def lookupName : List (String × Obj) → String → Option Obj
  | [], _ => none
  | (k, v) :: rest, s => if k = s then some v else lookupName rest s

/-- `toolz.assoc d k v`: functional update, insertion order preserved. -/
def assocPut (d : List (String × Obj)) (k : String) (v : Obj) : List (String × Obj) :=
  if (lookupName d k).isSome then d.map (fun p => if p.1 = k then (k, v) else p)
  else d ++ [(k, v)]

/-- `toolz.merge d1 d2`: keys in first-appearance order, later dict wins
on a collision. -/
def dictMerge (d1 d2 : List (String × Obj)) : List (String × Obj) :=
  d1.map (fun p => ((p.1, (lookupName d2 p.1).getD p.2) : String × Obj)) ++
    d2.filter (fun p => (lookupName d1 p.1).isNone)

/-- `getattr(other, '_constants', {})`. -/
def objConstants : Obj → List (String × Obj)
  | .node n => n.constants
  | _ => []

/-- `_normalize_arg(other, constants)` (identical in both modules).
Note the placeholder branches return `other` itself — the placeholder
object, not `other._tree` — as the value that goes into the ast; only the
display string distinguishes a composite node (parenthesized) from a bare
marker. -/
def normalizeArg (other : Obj) (constants : List (String × Obj)) (ctx : Ctx) :
    String × Tree × List (String × Obj) × Ctx :=
  match other with
  | .node n =>
      if n.tree.isSome then ("(" ++ n.name ++ ")", .ph n, constants, ctx)
      else (n.name, .ph n, constants, ctx)
  | v =>
      let (nm, ctx') := ctx.fresh
      (reprObj v, .name nm, assocPut constants nm v, ctx')

/-- `self._pname`: parenthesize unless the tree is self or one of
`_no_paren_nodes = (Attribute, Call, Name)` (attribute nodes are not
modelled; no claim builds one). -/
def placeholder.pname (p : placeholder) : String :=
  match p.tree with
  | none => p.name
  | some (.name _) => p.name
  | some (.call _ _ _) => p.name
  | some _ => "(" ++ p.name ++ ")"

/-- `self._tree` in a tree position: the stored tree, or the placeholder
object itself for a bare marker. -/
def placeholder.selfTree (p : placeholder) : Tree := p.tree.getD (.ph p)

/-- The binary-operator overload body shared by all `_binop_map` entries:
normalize the operand, build `BinOp(left=self._tree, op, right=other)`,
merge the constants with `getattr(other, '_constants', {})`. -/
def placeholder.binOp (p : placeholder) (kind : BinOpKind) (sym : String) (other : Obj)
    (ctx : Ctx) : placeholder × Ctx :=
  let (othername, otree, constants, ctx') := normalizeArg other p.constants ctx
  (.mk (p.pname ++ " " ++ sym ++ " " ++ othername)
       (some (.binop kind p.selfTree otree))
       (dictMerge constants (objConstants other)), ctx')

/-- `placeholder.__getitem__`: normalize the key and build a
`Subscript(value=self._tree, slice=Index(key))` node.  The constants of the
resulting node are only the normalizer's output — the key's own
`_constants` are not merged (contrast with `placeholder.binOp`). -/
def placeholder.getitem (p : placeholder) (key : Obj) (ctx : Ctx) : placeholder × Ctx :=
  let (keyname, ktree, constants, ctx') := normalizeArg key p.constants ctx
  (.mk (p.pname ++ "[" ++ keyname ++ "]")
       (some (.subscript p.selfTree ktree))
       constants, ctx')

/-! ## The operator tables of the two modules -/

/-- `src/fz/__init__.py`'s `_binop_map`, in source order. -/
def fzBinopMap : List (String × BinOpKind × String) :=
  [("__add__", (.add, "+")), ("__sub__", (.sub, "-")), ("__mul__", (.mult, "*")),
   ("__truediv__", (.div, "/")), ("__floordiv__", (.floordiv, "//")),
   ("__mod__", (.mod, "%")), ("__pow__", (.pow, "**")), ("__and__", (.bitand, "&")),
   ("__or__", (.bitor, "|")), ("__xor__", (.bitxor, "^")),
   ("__lshift__", (.lshift, "<<")), ("__rshift__", (.rshift, ">>"))]

/-- `src/_/__init__.py`'s `_binop_map`, in source order: true division is
registered under the Python-2 name `__div__`, and `'__xor__'` is mapped to
`ast.BitOr`. -/
def usBinopMap : List (String × BinOpKind × String) :=
  [("__add__", (.add, "+")), ("__sub__", (.sub, "-")), ("__mul__", (.mult, "*")),
   ("__div__", (.div, "/")), ("__floordiv__", (.floordiv, "//")),
   ("__mod__", (.mod, "%")), ("__pow__", (.pow, "**")), ("__and__", (.bitand, "&")),
   ("__or__", (.bitor, "|")), ("__xor__", (.bitor, "^")),
   ("__lshift__", (.lshift, "<<")), ("__rshift__", (.rshift, ">>"))]

def lookupDunder : List (String × BinOpKind × String) → String → Option (BinOpKind × String)
  | [], _ => none
  | (d, ks) :: rest, s => if d = s then some ks else lookupDunder rest s

/-- The twelve binary operators of the claims, as Python surface
operators. -/
inductive PyOp where
  | add | sub | mul | truediv | floordiv | mod | pow
  | band | bor | bxor | shl | shr
deriving DecidableEq

/-- The special method Python 3 dispatches for each operator. -/
def PyOp.dunder : PyOp → String
  | .add => "__add__"
  | .sub => "__sub__"
  | .mul => "__mul__"
  | .truediv => "__truediv__"
  | .floordiv => "__floordiv__"
  | .mod => "__mod__"
  | .pow => "__pow__"
  | .band => "__and__"
  | .bor => "__or__"
  | .bxor => "__xor__"
  | .shl => "__lshift__"
  | .shr => "__rshift__"

/-- The `ast` operator node that denotes each Python operator (what
Python's own parser produces for the operator's syntax). -/
def PyOp.astKind : PyOp → BinOpKind
  | .add => .add
  | .sub => .sub
  | .mul => .mult
  | .truediv => .div
  | .floordiv => .floordiv
  | .mod => .mod
  | .pow => .pow
  | .band => .bitand
  | .bor => .bitor
  | .bxor => .bitxor
  | .shl => .lshift
  | .shr => .rshift

/-- `lhs OP rhs` through a module's `_binop_map`: Python dispatches the
operator's special method; a missing entry is an unsupported-operand
`TypeError` (`none`). -/
def applyBinDunder (map : List (String × BinOpKind × String)) (p : placeholder)
    (op : PyOp) (rhs : Obj) (ctx : Ctx) : Option (placeholder × Ctx) :=
  (lookupDunder map op.dunder).map (fun ks => p.binOp ks.1 ks.2 rhs ctx)

/-! ## The name-substitution pass (`_NameSubstitute`)

`visit_placeholder` looks its memo up by the placeholder object (whose
hash is `id(self)`) but stores under the string `node._name`, so the
lookup never hits; every placeholder leaf is replaced by a fresh
`ast.Name(id=node._name)` and the name is recorded (dict insertion:
storing an already-present string leaves one entry at its first
position).  `NodeTransformer.generic_visit` recurses into child fields in
`_fields` order. -/

def cacheInsert (cache : List String) (s : String) : List String :=
  if s ∈ cache then cache else cache ++ [s]

mutual
/-- `_NameSubstitute().visit` on a tree, threading the name cache; returns
the rewritten tree and the cache.  (This is the value the pass computes;
its in-place mutation of shared subtrees is modelled separately in the
`Mut` namespace.) -/
def substT : Tree → List String → Tree × List String
  | .name s, cache => (.name s, cache)
  | .binop k l r, cache =>
      let (l1, c1) := substT l cache
      let (r1, c2) := substT r c1
      (.binop k l1 r1, c2)
  | .subscript v s, cache =>
      let (v1, c1) := substT v cache
      let (s1, c2) := substT s c1
      (.subscript v1 s1, c2)
  | .call f as ks, cache =>
      let (f1, c1) := substT f cache
      let (as1, c2) := substL as c1
      let (ks1, c3) := substL ks c2
      (.call f1 as1 ks1, c3)
  | .ph n, cache => (.name n.name, cacheInsert cache n.name)
def substL : List Tree → List String → List Tree × List String
  | [], cache => ([], cache)
  | t :: ts, cache =>
      let (t1, c1) := substT t cache
      let (ts1, c2) := substL ts c1
      (t1 :: ts1, c2)
end

/-! ## The compiler (`placeholder._compile`) -/

/-- The synthesized function: parameter list, substituted body, and the
constants handed to the injection service (`asconstants`). -/
structure Compiled where
  params : List String
  body : Tree
  consts : List (String × Obj)

/-- `int(name[1:])` for a substitution-cache name. -/
def parseMarkerIdx (s : String) : Option Nat := pyParseNat s.data.tail

/-- `maxarg = max((int(name[1:]) for name in c.name_cache), default=0) + 1`
followed by `args = ['_%d' % n for n in range(1, maxarg)]`; a name whose
tail is not an integer literal raises `ValueError` inside the `max`. -/
def paramsFromCache (cache : List String) : Except PyErr (List String) :=
  match cache.mapM parseMarkerIdx with
  | none => .error .valueError
  | some idxs => .ok ((List.range' 1 (idxs.foldr max 0)).map markerName)

/-- `placeholder._compile`, up to the black-box `compile`/`exec` step: the
generated callable is determined by the parameter list, the substituted
body and the constants bound by `asconstants` (which binds the original
objects by reference). -/
def placeholder.compile (p : placeholder) : Except PyErr Compiled :=
  let (t, cache) := substT p.selfTree []
  match paramsFromCache cache with
  | .error e => .error e
  | .ok params => .ok ⟨params, t, p.constants⟩

/-! ## Evaluation of a compiled body

The generated function evaluates its `Return` expression with the
positional parameters as locals and the injected constants as the
remaining free names.  Evaluation is parametric in a semantics `Sem` for
the host operations: binary operators, subscripts, and application of
external callables (`app`, keyed by the function object's id).  Calls to
external callables are also recorded in a trace, in evaluation order, so
that "invoked exactly once with these arguments" is statable. -/

structure Sem where
  bin : BinOpKind → Obj → Obj → Option Obj
  getitem : Obj → Obj → Option Obj
  app : Nat → List Obj → Option Obj

abbrev Trace := List (Nat × List Obj)

mutual
def evalT (sem : Sem) (env : List (String × Obj)) : Tree → Except PyErr (Obj × Trace)
  | .name s =>
      match lookupName env s with
      | some v => .ok (v, [])
      | none => .error .nameError
  | .binop k l r => do
      let (lv, t1) ← evalT sem env l
      let (rv, t2) ← evalT sem env r
      match sem.bin k lv rv with
      | some v => .ok (v, t1 ++ t2)
      | none => .error .typeError
  | .subscript v s => do
      let (vv, t1) ← evalT sem env v
      let (sv, t2) ← evalT sem env s
      match sem.getitem vv sv with
      | some r => .ok (r, t1 ++ t2)
      | none => .error .typeError
  | .call f as ks => do
      let (fv, t1) ← evalT sem env f
      let (avs, t2) ← evalL sem env as
      if ks.isEmpty then
        match fv with
        | .func fid _ =>
            match sem.app fid avs with
            | some r => .ok (r, t1 ++ t2 ++ [(fid, avs)])
            | none => .error .typeError
        | _ => .error .typeError
      else .error .typeError
  | .ph _ =>
      -- unreachable after substitution: an ast containing a raw
      -- placeholder object would be rejected by `compile()`
      .error .typeError
def evalL (sem : Sem) (env : List (String × Obj)) : List Tree → Except PyErr (List Obj × Trace)
  | [] => .ok ([], [])
  | t :: ts => do
      let (v, t1) ← evalT sem env t
      let (vs, t2) ← evalL sem env ts
      .ok (v :: vs, t1 ++ t2)
end

/-- Invoke a generated callable: exact positional arity (the synthesized
`FunctionDef` has no defaults, varargs or keyword parameters), locals
shadow injected constants. -/
def Compiled.call (sem : Sem) (c : Compiled) (args : List Obj) : Except PyErr (Obj × Trace) :=
  if c.params.length = args.length then evalT sem (c.params.zip args ++ c.consts) c.body
  else .error .typeError

/-- First invocation of a freshly built node: compile, then call. -/
def placeholder.callFresh (sem : Sem) (p : placeholder) (args : List Obj) :
    Except PyErr (Obj × Trace) :=
  match p.compile with
  | .error e => .error e
  | .ok c => c.call sem args

/-- A node together with its `_maybe_fn` cache slot (the one mutable
field). -/
structure NodeSt where
  node : placeholder
  cache : Option Compiled

/-- `placeholder.__init__` leaves `_maybe_fn = None`. -/
def NodeSt.ofNode (p : placeholder) : NodeSt := ⟨p, none⟩

/-- `placeholder.__call__` via the `_compiled_fn` property: use the cached
callable if present, otherwise compile once and store the result (on a
compile error nothing is stored — the exception propagates before the
assignment). -/
def invoke (sem : Sem) (s : NodeSt) (args : List Obj) :
    (Except PyErr (Obj × Trace)) × NodeSt :=
  match s.cache with
  | some c => (c.call sem args, s)
  | none =>
      match s.node.compile with
      | .error e => (.error e, s)
      | .ok c => (c.call sem args, ⟨s.node, some c⟩)

/-! ## `%`-formatting

`op.mod('%s=%s')` applied to a kwarg display name: `fmt % arg` with a
plain string argument supplies exactly one value, so a format string with
two `%s` conversions raises `TypeError: not enough arguments for format
string`. -/

def countPctS : List Char → Nat
  | '%' :: 's' :: rest => 1 + countPctS rest
  | _ :: rest => countPctS rest
  | [] => 0

def fillPctS : List Char → String → List Char
  | '%' :: 's' :: rest, a => a.data ++ rest
  | c :: rest, _ => c :: fillPctS rest ""
  | [], _ => []

/-- `fmt % arg` for a single non-tuple (string) argument: succeeds exactly
when `fmt` has one `%s` conversion. -/
def pyFormat1 (fmt : String) (arg : String) : Option String :=
  if countPctS fmt.data = 1 then some ⟨fillPctS fmt.data arg⟩ else none

/-! ## Callable-wrapping entry points

`value_placeholder` (fz, exported as both `_v` and `_f`) and
`callable_placeholder` (module `_`, exported as `_` and `_f`).  Their
`__call__` bodies are identical: normalize every positional argument and
every keyword value, then build the display name
`'%s(%s%s%s)' % (self._name, ', '.join(argnames), sep,
', '.join(map(op.mod('%s=%s'), kwargnames)))` and return a plain
`placeholder` with a `Call` tree. -/

def normalizeList (xs : List Obj) (cs : List (String × Obj)) (ctx : Ctx) :
    List String × List Tree × List (String × Obj) × Ctx :=
  match xs with
  | [] => ([], [], cs, ctx)
  | x :: rest =>
      let (nmx, tx, cs1, ctx1) := normalizeArg x cs ctx
      let r := normalizeList rest cs1 ctx1
      (nmx :: r.1, tx :: r.2.1, r.2.2.1, r.2.2.2)

/-- The shared `__call__` body of the two wrapper classes. -/
def wrapperCall (selfName : String) (selfTree : Tree) (selfCs : List (String × Obj))
    (args : List Obj) (kwargs : List (String × Obj)) (ctx : Ctx) :
    Except PyErr (placeholder × Ctx) :=
  let a := normalizeList args selfCs ctx
  let k := normalizeList (kwargs.map Prod.snd) a.2.2.1 a.2.2.2
  match k.1.mapM (pyFormat1 "%s=%s") with
  | none => .error .typeError
  | some kwparts =>
      .ok (.mk (selfName ++ "(" ++ String.intercalate ", " a.1 ++
                (if !args.isEmpty && !kwargs.isEmpty then ", " else "") ++
                String.intercalate ", " kwparts ++ ")")
               (some (.call selfTree a.2.1 k.2.1))
               k.2.2.1, k.2.2.2)

/-- `value_placeholder` (fz): a full expression node wrapping a value. -/
structure ValuePH where
  name : String
  tree : Tree
  constants : List (String × Obj)
  value : Obj

/-- `value_placeholder.__init__`: name from the wrapped placeholder, else
`value.__name__`, else `repr(value)`; tree `Name(id=name)`; constants
empty for a wrapped placeholder, else `{name: value}`. -/
def mkVPH (value : Obj) : ValuePH :=
  match value with
  | .node n => ⟨n.name, .name n.name, [], value⟩
  | .func i nm => ⟨nm, .name nm, [(nm, .func i nm)], .func i nm⟩
  | v => ⟨reprObj v, .name (reprObj v), [(reprObj v, v)], v⟩

/-- A `value_placeholder` seen as the `placeholder` it subclasses (the
inherited overloads read exactly these three fields). -/
def ValuePH.asNode (w : ValuePH) : placeholder := .mk w.name (some w.tree) w.constants

/-- `value_placeholder.__call__` — overridden to build a call expression
instead of executing the lambda. -/
def ValuePH.call (w : ValuePH) (args : List Obj) (kwargs : List (String × Obj))
    (ctx : Ctx) : Except PyErr (placeholder × Ctx) :=
  wrapperCall w.name w.tree w.constants args kwargs ctx

/-- `callable_placeholder` (module `_`): not a `placeholder` subclass;
fields `_fn`, `_tree`, `_constants`, with `_name` a property. -/
structure CallablePH where
  fn : Obj
  name : String
  tree : Tree
  constants : List (String × Obj)

/-- `callable_placeholder.__init__`: wrapping an object with neither a
placeholder type nor a `__name__` raises `AttributeError` (`none`). -/
def mkCPH (fn : Obj) : Option CallablePH :=
  match fn with
  | .node n => some ⟨fn, n.name, .name n.name, []⟩
  | .func i nm => some ⟨.func i nm, nm, .name nm, [(nm, .func i nm)]⟩
  | _ => none

def CallablePH.call (w : CallablePH) (args : List Obj) (kwargs : List (String × Obj))
    (ctx : Ctx) : Except PyErr (placeholder × Ctx) :=
  wrapperCall w.name w.tree w.constants args kwargs ctx

/-! ## A concrete integer semantics

Python's integer arithmetic for the operators that are closed on `int`
(floor division and modulo follow the divisor's sign — `Int.fdiv` /
`Int.fmod`; bitwise operators are two's complement; shift counts and
exponents must be non-negative).  True division returns a float and is
outside this integer semantics (`none`); no claim evaluates it concretely.
External calls and subscripts are absent from this semantics. -/

def intBin : BinOpKind → Obj → Obj → Option Obj
  | .add, .int x, .int y => some (.int (x + y))
  | .sub, .int x, .int y => some (.int (x - y))
  | .mult, .int x, .int y => some (.int (x * y))
  | .div, _, _ => none
  | .floordiv, .int x, .int y => if y = 0 then none else some (.int (Int.fdiv x y))
  | .mod, .int x, .int y => if y = 0 then none else some (.int (Int.fmod x y))
  | .pow, .int x, .int y => if y < 0 then none else some (.int (x ^ y.toNat))
  | .bitand, .int x, .int y => some (.int (Int.land x y))
  | .bitor, .int x, .int y => some (.int (Int.lor x y))
  | .bitxor, .int x, .int y => some (.int (Int.xor x y))
  | .lshift, .int x, .int y => if y < 0 then none else some (.int (x * 2 ^ y.toNat))
  | .rshift, .int x, .int y => if y < 0 then none else some (.int (Int.fdiv x (2 ^ y.toNat)))
  | _, _, _ => none

def intSem : Sem := ⟨intBin, fun _ _ => none, fun _ _ => none⟩

/-! ## Heap model of the substitution pass

`_compile` runs the pass on `copy(self._tree)` — a SHALLOW copy: the new
root still references the original children.  `NodeTransformer.generic_visit`
assigns the rewritten children back into the fields of the node it visits
(`setattr` on that same object), so nested nodes shared with other
placeholders are mutated in place.  To state that, the ast is modelled as
a heap of cells addressed by object identity.  Only the cell kinds that
occur in the claim's scenario are needed: `ast.Name`, `ast.BinOp`, and a
bare slot-marker placeholder (of which `visit_placeholder` reads only
`_name`). -/

namespace Mut

abbrev Addr := Nat

inductive HCell where
  | nm : String → HCell
  | bin : BinOpKind → Addr → Addr → HCell
  | ph : String → HCell

abbrev Heap := List HCell

/-- Create a new object. -/
def alloc (h : Heap) (c : HCell) : Heap × Addr := (h ++ [c], h.length)

/-- `copy.copy` of an ast node: a new object whose fields still reference
the original children. -/
def copyCell (h : Heap) (a : Addr) : Option (Heap × Addr) :=
  (h[a]?).map (alloc h)

/-- `_NameSubstitute().visit`: a placeholder leaf becomes a fresh
`ast.Name` and its name is recorded; `generic_visit` on a `BinOp` visits
`left` then `right` and stores the results back into the fields of the
same node, mutating it in place; `Name` nodes are returned unchanged. -/
def visit : Nat → Heap → List String → Addr → Option (Heap × Addr × List String)
  | 0, _, _, _ => none
  | fuel + 1, h, cache, a =>
      match h[a]? with
      | some (.ph nm) =>
          let (h1, a1) := alloc h (.nm nm)
          some (h1, a1, cacheInsert cache nm)
      | some (.nm _) => some (h, a, cache)
      | some (.bin k l r) => do
          let (h1, l1, c1) ← visit fuel h cache l
          let (h2, r1, c2) ← visit fuel h1 c1 r
          some (h2.set a (.bin k l1 r1), a, c2)
      | none => none

/-- Read the heap tree at an address back into a pure `Tree`: the shape
the `compile`/`exec` step freezes into the code object (later heap
mutation cannot affect an already-compiled function). -/
def freeze : Nat → Heap → Addr → Option Tree
  | 0, _, _ => none
  | fuel + 1, h, a =>
      match h[a]? with
      | some (.nm s) => some (.name s)
      | some (.bin k l r) => do
          let lt ← freeze fuel h l
          let rt ← freeze fuel h r
          some (.binop k lt rt)
      | some (.ph _) =>
          -- cannot remain after the pass ran over this address
          none
      | none => none

/-- `placeholder._compile` over the heap: shallow-copy the root, run the
pass (leaving its mutations in the heap), derive the parameter list from
the name cache, and freeze the resulting tree. -/
def compileAt (fuel : Nat) (h : Heap) (a : Addr) (consts : List (String × Obj)) :
    Option (Compiled × Heap) := do
  let (h1, ca) ← copyCell h a
  let (h2, ra, cache) ← visit fuel h1 [] ca
  match paramsFromCache cache with
  | .error _ => none
  | .ok params => do
      let body ← freeze fuel h2 ra
      some (⟨params, body, consts⟩, h2)

/-- The heap after creating markers `_1` (address 0) and `_2` (address 1)
and building `e = _1 + _2`: the `__add__` overload stores
`BinOp(left=self._tree, op=Add(), right=other)` with both marker objects
by reference (address 2). -/
def hE : Heap := (alloc [.ph "_1", .ph "_2"] (.bin .add 0 1)).1

def eAddr : Addr := 2

/-- Building `g = e * 2` on top: the constant 2 is normalized to a fresh
`Name('_u0')` (address 3) and `g._tree = BinOp(left=e._tree, op=Mult(),
right=Name)` (address 4) references `e`'s tree object directly. -/
def hG : Heap := (alloc (alloc hE (.nm "_u0")).1 (.bin .mult eAddr 3)).1

def gAddr : Addr := 4

def gConsts : List (String × Obj) := [("_u0", Obj.int 2)]

/-- Compiling `g` (its first invocation). -/
def gCompileRes : Option (Compiled × Heap) := compileAt 100 hG gAddr gConsts

/-- The heap as compiling `g` leaves it. -/
def hAfterG : Heap := (gCompileRes.map Prod.snd).getD []

end Mut

/-! ## Concrete expression nodes used by the claims -/

/-- `_2 * 3` (with its updated name supply). -/
def n23p : placeholder × Ctx := (marker 2).binOp .mult "*" (.int 3) ctx0

/-- `_1 + (_2 * 3)`: a composite node as right operand. -/
def n123 : placeholder := ((marker 1).binOp .add "+" (.node n23p.1) n23p.2).1

/-- `_1 + _3`: references markers 1 and 3 but not 2. -/
def n13 : placeholder := ((marker 1).binOp .add "+" (.node (marker 3)) ctx0).1

/-- `_1 + 1` (with its updated name supply). -/
def k1p : placeholder × Ctx := (marker 1).binOp .add "+" (.int 1) ctx0

/-- `_v(m)` for an external mapping object `m`. -/
def dWrap : ValuePH := mkVPH (.ext 7)

/-- `_v(m)[_1 + 1]`: indexing by a key that carries its own constants. -/
def dIndexK1 : placeholder := (dWrap.asNode.getitem (.node k1p.1) k1p.2).1

/-- `_v(m) + (_1 + 1)`: the binary-operator overload on the same operand,
for contrast. -/
def dPlusK1 : placeholder := (dWrap.asNode.binOp .add "+" (.node k1p.1) k1p.2).1

/-- The tuple key `(_1, _2)` that `d[_1, _2]` passes to `__getitem__`. -/
def tupleKey : Obj := .tuple [.node (marker 1), .node (marker 2)]

/-- `_v(m)[_1, _2]`. -/
def dIndexTuple : placeholder := (dWrap.asNode.getitem tupleKey ctx0).1

/-- `_f(_1)` (fz). -/
def vpM1 : ValuePH := mkVPH (.node (marker 1))

/-- The node `_f(_1)(_3, _2)` that the wrapper call builds. -/
def flipNode : placeholder :=
  .mk "_1(_3, _2)" (some (.call (.name "_1") [.ph (marker 3), .ph (marker 2)] [])) []

/-- `_1 OP _2` through a module's operator table. -/
def markerPairOp (map : List (String × BinOpKind × String)) (op : PyOp) :
    Option placeholder :=
  (applyBinDunder map (marker 1) op (.node (marker 2)) ctx0).map Prod.fst

/-- `_1 OP b` for an integer constant `b`, through a module's operator
table. -/
def markerConstOp (map : List (String × BinOpKind × String)) (op : PyOp) (b : Int) :
    Option placeholder :=
  (applyBinDunder map (marker 1) op (.int b) ctx0).map Prod.fst

/-! ## Helper lemmas -/

theorem parse_markerName (i : Nat) : parseMarkerIdx (markerName i) = some i :=
  pyParseNat_natReprChars i

theorem markerName_inj {a b : Nat} (h : markerName a = markerName b) : a = b := by
  have hd : ('_' :: natReprChars a) = ('_' :: natReprChars b) :=
    congrArg String.data h
  exact natReprChars_injective (by simpa using congrArg List.tail hd)

theorem mapM_parse_markerNames (is : List Nat) :
    (is.map markerName).mapM parseMarkerIdx = some is := by
  induction is with
  | nil => rfl
  | cons i is ih =>
    rw [List.map_cons, List.mapM_cons, parse_markerName, ih]
    rfl

/-- Looking a marker name up in the zip of the synthesized parameter list
with the argument list yields the positional argument. -/
theorem lookupZipRange (m : Nat) : ∀ (s : Nat) (args : List Obj) (j : Nat),
    args.length = m → s ≤ j → j < s + m →
    lookupName (((List.range' s m).map markerName).zip args) (markerName j) =
      args[j - s]? := by
  induction m with
  | zero => intro s args j _ hs hj; omega
  | succ m ih =>
    intro s args j h hs hj
    cases args with
    | nil => simp at h
    | cons a as =>
      rw [List.range'_succ]
      by_cases hsj : s = j
      · subst hsj
        show lookupName ((markerName s, a) ::
            ((List.map markerName (List.range' (s + 1) m)).zip as)) (markerName s) =
          (a :: as)[s - s]?
        simp [lookupName, Nat.sub_self]
      · have hne : markerName s ≠ markerName j := fun hc => hsj (markerName_inj hc)
        show lookupName ((markerName s, a) ::
            ((List.map markerName (List.range' (s + 1) m)).zip as)) (markerName j) =
          (a :: as)[j - s]?
        simp only [lookupName, if_neg hne]
        rw [ih (s + 1) as j (by simpa using h) (by omega) (by omega)]
        have hidx : j - s = (j - (s + 1)) + 1 := by omega
        rw [hidx, List.getElem?_cons_succ]

theorem pyFormat1_two_conversions (s : String) : pyFormat1 "%s=%s" s = none := by
  have h : countPctS "%s=%s".data = 2 := rfl
  simp [pyFormat1, h]

/-- Any keyword argument makes the shared wrapper `__call__` body raise
while building the display name (`'%s=%s' % name` with a single string
argument). -/
theorem wrapperCall_kwargs_raise (nm : String) (tr : Tree) (cs : List (String × Obj))
    (args : List Obj) (kwargs : List (String × Obj)) (ctx : Ctx)
    (h : kwargs ≠ []) :
    wrapperCall nm tr cs args kwargs ctx = .error .typeError := by
  cases kwargs with
  | nil => exact absurd rfl h
  | cons kw kws => rfl

/-- Evaluating the node `_1 KIND _2` applies the semantics of `KIND` to
the two positional arguments in order, whatever that semantics is. -/
theorem binop_eval_markers (kind : BinOpKind) (sym : String) (sem : Sem) (a b : Obj) :
    (((marker 1).binOp kind sym (.node (marker 2)) ctx0).1).callFresh sem [a, b] =
      match sem.bin kind a b with
      | some v => .ok (v, [])
      | none => .error .typeError := rfl

/-- Evaluating the node `_1 KIND b` (hoisted integer constant) applies the
semantics of `KIND` to the argument and the stored constant. -/
theorem binop_eval_const (kind : BinOpKind) (sym : String) (sem : Sem) (a : Obj)
    (b : Int) :
    (((marker 1).binOp kind sym (.int b) ctx0).1).callFresh sem [a] =
      match sem.bin kind a (.int b) with
      | some v => .ok (v, [])
      | none => .error .typeError := rfl

/-- `_compile` seen through its two stages (structure eta). -/
theorem compile_eq (p : placeholder) :
    p.compile = match paramsFromCache (substT p.selfTree []).2 with
      | .error e => .error e
      | .ok params => .ok ⟨params, (substT p.selfTree []).1, p.constants⟩ := rfl

/-- When the substitution pass collected exactly the marker names `idxs`,
compilation succeeds and the parameter list is `_1 ... _max`. -/
theorem compile_eq_of_cache (p : placeholder) (idxs : List Nat)
    (h : (substT p.selfTree []).2 = idxs.map markerName) :
    p.compile = .ok ⟨(List.range' 1 (idxs.foldr max 0)).map markerName,
                     (substT p.selfTree []).1, p.constants⟩ := by
  rw [compile_eq, h]
  simp only [paramsFromCache, mapM_parse_markerNames]

/-! ## The claims -/

/-- **C1** (code_bug evidence).  The combining overloads do *not* embed a
composite right operand's `tree_fragment`: `_normalize_arg` returns the
placeholder object itself, so `_1 + (_2 * 3)` stores the composite node
`_2 * 3` as an opaque leaf (first two conjuncts).  The substitution pass
replaces that leaf by `Name(id='_2 * 3')`, and `int('2 * 3')` raises
`ValueError` while computing `maxarg`, so invoking the expression with
any arguments raises instead of returning `a + b * 3`. -/
theorem claim_C1_composite_rhs_compile_raises :
    n123.tree = some (.binop .add (.ph (marker 1)) (.ph n23p.1)) ∧
    n23p.1.tree = some (.binop .mult (.ph (marker 2)) (.name (uuidName 0))) ∧
    n123.compile = .error .valueError ∧
    ∀ (sem : Sem) (args : List Obj), n123.callFresh sem args = .error .valueError :=
  ⟨rfl, rfl, rfl, fun _ _ => rfl⟩

/-- **C2** (code_bug evidence).  `_compile` copies only the root
(`copy(self._tree)` is shallow) and the substitution pass mutates nested
nodes in place.  With `e = _1 + _2` and `g = e * 2` sharing `e`'s `BinOp`
object: before `g` is compiled, `e` compiles to a two-parameter callable
with `e(1, 2) = 3`; compiling and invoking `g` works (`g(1, 2) = 6`) but
rewrites the shared node's children to `Name` leaves, after which `e`
compiles to a ZERO-parameter callable and `e(1, 2)` raises an
arity `TypeError` instead of returning `a + b`. -/
theorem claim_C2_compile_mutates_shared_subtree :
    (Mut.compileAt 100 Mut.hG Mut.eAddr []).map
        (fun p => (p.1.params, p.1.call intSem [.int 1, .int 2])) =
      some (["_1", "_2"], .ok (.int 3, [])) ∧
    Mut.gCompileRes.map (fun p => p.1.call intSem [.int 1, .int 2]) =
      some (.ok (.int 6, [])) ∧
    (Mut.compileAt 100 Mut.hAfterG Mut.eAddr []).map
        (fun p => (p.1.params, p.1.call intSem [.int 1, .int 2])) =
      some ([], .error .typeError) :=
  ⟨rfl, rfl, rfl⟩

/-- **C3** (code_bug evidence).  In `fz` every supported operator's
special method is wired to the matching `ast` operator, and
`(_1 op _2)(a, b)` and `(_1 op b)(a)` apply exactly that operation to the
operands in order, under any semantics.  In module `_`, true division has
no `__truediv__` entry (Python 3 `/` is unsupported) and `__xor__` is
wired to `ast.BitOr`, so `(_1 ^ _2)(1, 1)` computes `1 | 1 = 1` where
exclusive-or gives `0` — contradicting the claim and the module's own
tests. -/
theorem claim_C3_operator_tables :
    (∀ (op : PyOp) (sem : Sem) (a b : Obj),
       (markerPairOp fzBinopMap op).map (fun p => p.callFresh sem [a, b]) =
         some (match sem.bin op.astKind a b with
               | some v => .ok (v, [])
               | none => .error .typeError)) ∧
    (∀ (op : PyOp) (sem : Sem) (a : Obj) (b : Int),
       (markerConstOp fzBinopMap op b).map (fun p => p.callFresh sem [a]) =
         some (match sem.bin op.astKind a (.int b) with
               | some v => .ok (v, [])
               | none => .error .typeError)) ∧
    lookupDunder usBinopMap "__truediv__" = none ∧
    lookupDunder usBinopMap "__xor__" = some (.bitor, "^") ∧
    (markerPairOp usBinopMap .bxor).map
        (fun p => p.callFresh intSem [.int 1, .int 1]) =
      some (.ok (.int 1, [])) ∧
    Int.xor 1 1 = 0 := by
  refine ⟨?_, ?_, rfl, rfl, rfl, rfl⟩
  · intro op sem a b
    cases op <;> exact congrArg some (binop_eval_markers _ _ sem a b)
  · intro op sem a b
    cases op <;> exact congrArg some (binop_eval_const _ _ sem a b)

/-- **C4 counterexample**.  The generated callable takes exactly the
maximum marker index many positional parameters, so invoking bare `_1`
with a 2-tuple raises a `TypeError` instead of returning the 1st
argument: "any input tuple of length ≥ k" fails for length > k. -/
theorem claim_C4_counterexample :
    (marker 1).callFresh intSem [.int 0, .int 1] = .error .typeError ∧
    (marker 1).callFresh intSem [.int 0, .int 1] ≠ .ok (.int 0, []) :=
  ⟨rfl, fun h => Except.noConfusion
    ((rfl : (marker 1).callFresh intSem [.int 0, .int 1] =
        .error .typeError).symm.trans h)⟩

/-- **C4** (amended: tuple length exactly k).  For marker `k`
(1 ≤ k ≤ 255) and an input tuple of length exactly `k`, invoking the bare
marker returns the `k`-th argument — in this embedding, the argument-list
element itself, the embedding's rendering of "by identity". -/
theorem claim_C4_amended (sem : Sem) (k : Nat) (args : List Obj)
    (h1 : 1 ≤ k) (h2 : k ≤ 255) (h3 : args.length = k) :
    (marker k).callFresh sem args = .ok (args.get ⟨k - 1, by omega⟩, []) := by
  have hcomp := compile_eq_of_cache (marker k) [k] rfl
  rw [show ([k].foldr max 0) = k by simp] at hcomp
  rw [show (substT (marker k).selfTree []).1 = .name (markerName k) from rfl] at hcomp
  rw [show (marker k).constants = [] from rfl] at hcomp
  have hlen : ((List.range' 1 k).map markerName).length = args.length := by
    simp [h3]
  simp only [placeholder.callFresh, hcomp, Compiled.call, if_pos hlen, List.append_nil,
    evalT]
  rw [lookupZipRange k 1 args k h3 (by omega) (by omega)]
  rw [List.getElem?_eq_getElem (by omega : k - 1 < args.length)]
  simp [List.get_eq_getElem]

/-- **C4 witness**: `_2(5, 7)` is `7`. -/
theorem claim_C4_amended_witness :
    (1 ≤ 2 ∧ 2 ≤ 255 ∧ ([Obj.int 5, Obj.int 7] : List Obj).length = 2) ∧
    (marker 2).callFresh intSem [.int 5, .int 7] = .ok (.int 7, []) :=
  ⟨⟨by decide, by decide, rfl⟩,
   claim_C4_amended intSem 2 [.int 5, .int 7] (by decide) (by decide) rfl⟩

/-- **C5**.  `_f(_1)(_3, _2)` builds the composed call node without
consulting any semantics (the build step has no access to function
behaviour, so the wrapped callable cannot be invoked), and invoking the
result with `(f, x, y)` applies `f` exactly once — the call trace is the
single event `f(y, x)` — returning whatever `f` returns on `(y, x)`. -/
theorem claim_C5_flip_composition :
    vpM1.call [.node (marker 3), .node (marker 2)] [] ctx0 = .ok (flipNode, ctx0) ∧
    (∀ (sem : Sem) (fid : Nat) (nm : String) (x y : Obj),
       flipNode.callFresh sem [.func fid nm, x, y] =
         match sem.app fid [y, x] with
         | some r => .ok (r, [(fid, [y, x])])
         | none => .error .typeError) :=
  ⟨rfl, fun _ _ _ _ _ => rfl⟩

/-- **C6**.  When the substitution pass collected exactly the markers
`idxs` from a node's tree, the generated callable's parameter list is
`_1 ... _max` for `max` the largest referenced index — one parameter per
index from 1 up to the maximum, regardless of gaps, and empty when no
marker is referenced (`idxs = []` gives `max = 0`). -/
theorem claim_C6_params_cover_max_marker (p : placeholder) (idxs : List Nat)
    (h : (substT p.selfTree []).2 = idxs.map markerName) :
    p.compile = .ok ⟨(List.range' 1 (idxs.foldr max 0)).map markerName,
                     (substT p.selfTree []).1, p.constants⟩ :=
  compile_eq_of_cache p idxs h

/-- **C6 witness**: `_1 + _3` references markers 1 and 3 only, yet
compiles to a three-parameter callable `(_1, _2, _3)`. -/
theorem claim_C6_params_witness :
    ((substT n13.selfTree []).2 = [1, 3].map markerName) ∧
    n13.compile = .ok ⟨["_1", "_2", "_3"], .binop .add (.name "_1") (.name "_3"), []⟩ :=
  ⟨rfl, claim_C6_params_cover_max_marker n13 [1, 3] rfl⟩

/-- **C7** (code_bug evidence).  `__getitem__` does not merge the key's
`_constants` into the new node: indexing `_v(m)` by `_1 + 1` (whose
constants hold the hoisted `1`) yields a node whose constants are only
`_v(m)`'s — the key's entry is silently dropped — whereas the
binary-operator overload on the same operand retains it. -/
theorem claim_C7_getitem_drops_key_constants :
    lookupName k1p.1.constants (uuidName 0) = some (.int 1) ∧
    dIndexK1.tree = some (.subscript (.name "<obj 7>") (.ph k1p.1)) ∧
    dIndexK1.constants = [("<obj 7>", .ext 7)] ∧
    lookupName dIndexK1.constants (uuidName 0) = none ∧
    lookupName dPlusK1.constants (uuidName 0) = some (.int 1) :=
  ⟨rfl, rfl, rfl, rfl, rfl⟩

/-- **C8** (code_bug evidence).  A tuple key is not a placeholder, so
`_normalize_arg` hoists the whole tuple `(_1, _2)` — marker objects
included — into the constants under a fresh synthetic name.  No marker is
referenced in the tree, the compiled callable takes zero parameters, and
invoking `_v(m)[_1, _2]` with two arguments raises a `TypeError` instead
of returning `m[a, b]`. -/
theorem claim_C8_tuple_key_not_bound :
    dIndexTuple.tree = some (.subscript (.name "<obj 7>") (.name (uuidName 0))) ∧
    lookupName dIndexTuple.constants (uuidName 0) = some tupleKey ∧
    (dIndexTuple.compile = .ok ⟨[], .subscript (.name "<obj 7>") (.name (uuidName 0)),
        dIndexTuple.constants⟩) ∧
    ∀ (sem : Sem) (a b : Obj), dIndexTuple.callFresh sem [a, b] = .error .typeError :=
  ⟨rfl, rfl, rfl, fun _ _ _ => rfl⟩

/-- **C9**.  Invoking a node is stable: the second invocation with the
same arguments returns the same result and leaves the state unchanged,
the node (hence its rendered display string `_name`) is never modified,
and after the first invocation the cache holds the compiled callable
(kept from before if already present, freshly compiled otherwise — so the
second invocation takes the cached branch rather than recompiling). -/
theorem claim_C9_invoke_cached_stable (sem : Sem) (s : NodeSt) (args : List Obj) :
    invoke sem ((invoke sem s args).2) args = invoke sem s args ∧
    ((invoke sem s args).2).node = s.node ∧
    ((invoke sem s args).2).cache =
      Option.orElse s.cache (fun _ => s.node.compile.toOption) := by
  rcases s with ⟨p, c⟩
  cases c with
  | some c0 => simp [invoke, Option.orElse]
  | none =>
    cases hc : p.compile with
    | error e => simp [invoke, hc, Except.toOption, Option.orElse]
    | ok c0 => simp [invoke, hc, Except.toOption, Option.orElse]

/-- **C10**.  Calling either wrapper with at least one keyword argument
always raises: the display-name construction applies the two-conversion
format `'%s=%s'` to the single kwarg display name, a `TypeError`, before
any node is returned. -/
theorem claim_C10_kwargs_raise :
    (∀ (v : Obj) (args : List Obj) (kwargs : List (String × Obj)) (ctx : Ctx),
       kwargs ≠ [] → (mkVPH v).call args kwargs ctx = .error .typeError) ∧
    (∀ (f : Obj) (c : CallablePH), mkCPH f = some c →
       ∀ (args : List Obj) (kwargs : List (String × Obj)) (ctx : Ctx),
         kwargs ≠ [] → c.call args kwargs ctx = .error .typeError) :=
  ⟨fun _ args kwargs ctx h => wrapperCall_kwargs_raise _ _ _ args kwargs ctx h,
   fun _ _ _ args kwargs ctx h => wrapperCall_kwargs_raise _ _ _ args kwargs ctx h⟩

/-- **C10 witness**: `_v(f)(a=1)` and `_(f)(a=1)` both raise. -/
theorem claim_C10_kwargs_witness :
    ([(("a" : String), Obj.int 1)] ≠ ([] : List (String × Obj))) ∧
    (mkVPH (.func 0 "f")).call [] [("a", .int 1)] ctx0 = .error .typeError ∧
    (∃ c : CallablePH, mkCPH (.func 0 "f") = some c ∧
       c.call [] [("a", .int 1)] ctx0 = .error .typeError) := by
  refine ⟨by simp, claim_C10_kwargs_raise.1 _ _ _ _ (by simp),
    ⟨⟨.func 0 "f", "f", .name "f", [("f", .func 0 "f")]⟩, rfl, ?_⟩⟩
  exact claim_C10_kwargs_raise.2 (.func 0 "f") _ rfl _ _ _ (by simp)

end Fz
